import Mathlib

/-
Verification of the endpoint-resolution and URI-composition layer of
`aws-smithy-http` (`src/rust-runtime/aws-smithy-http/src/endpoint.rs`).

Strings are embedded as `List Char` (Rust `&str` / `String`, always valid
UTF-8 here).  URIs are embedded component-wise, mirroring the accessors of
the `http` crate that `endpoint.rs` uses: `scheme()`, `authority()` and
`path_and_query()` are optional components, and `path()` / `query()` are
derived from the path-and-query component by splitting at the first `?`.
-/

/-- Convert a string literal to the character-list representation used by
the embedding. -/
def chars (s : String) : List Char := s.data

/-- Models the URI character table of the `http` crate (dependency of
`endpoint.rs`, not part of this repository's sources): the bytes that are
valid inside a URI authority.  Written with character codes: `!`, `#`, `$`,
`&`, the single quote, `(` through `;`, `=`, `?`, `@` through `Z`, `[`,
`]`, `_`, lowercase letters, and `~`. -/
def isUriChar (c : Char) : Bool :=
  decide (c.toNat = 0x21) || decide (c.toNat = 0x23) || decide (c.toNat = 0x24) ||
  decide (c.toNat = 0x26) || decide (c.toNat = 0x27) ||
  (decide (0x28 ≤ c.toNat) && decide (c.toNat ≤ 0x3B)) || decide (c.toNat = 0x3D) ||
  decide (c.toNat = 0x3F) ||
  (decide (0x40 ≤ c.toNat) && decide (c.toNat ≤ 0x5A)) || decide (c.toNat = 0x5B) ||
  decide (c.toNat = 0x5D) || decide (c.toNat = 0x5F) ||
  (decide (0x61 ≤ c.toNat) && decide (c.toNat ≤ 0x7A)) || decide (c.toNat = 0x7E)

/-- Models the scanning loop of `http::uri::Authority::parse` (from the
`http` crate dependency): walks the characters tracking the number of
colons since the last `@` or `]`, bracket state for IPv6 literals, and a
pending percent sign.  A `/`, `?` or `#` would end the authority before the
end of the string, which `Authority::from_str` rejects, so the scan returns
`false` for them.  At the end of the input the accumulated checks of
`parse` are applied: brackets balanced, at most one port colon, no stray
percent sign. -/
def authorityScan : List Char → Nat → Bool → Bool → Bool → Bool
  | [], colons, sb, eb, hp => (sb == eb) && decide (colons ≤ 1) && !hp
  | c :: rest, colons, sb, eb, hp =>
    if c.toNat = 0x2F ∨ c.toNat = 0x3F ∨ c.toNat = 0x23 then false
    else if c.toNat = 0x25 then authorityScan rest colons sb eb true
    else if isUriChar c = false then false
    else if c.toNat = 0x3A then authorityScan rest (colons + 1) sb eb hp
    else if c.toNat = 0x5B then
      (if hp ∨ sb then false else authorityScan rest colons true eb hp)
    else if c.toNat = 0x5D then
      (if eb then false else authorityScan rest 0 sb true false)
    else if c.toNat = 0x40 then authorityScan rest 0 sb eb false
    else authorityScan rest colons sb eb hp

/-- Models `http::uri::Authority::from_str` validity: the input is
non-empty, does not end with `@` (which would leave an empty host), and the
scanning loop accepts it. -/
def authorityValid (l : List Char) : Bool :=
  !l.isEmpty && !(decide (l.getLast? = some (Char.ofNat 0x40))) &&
    authorityScan l 0 false false false

/-- Models `http::uri::Authority::from_str`: on success the authority is
stored exactly as given (the `http` crate keeps the original string). -/
def authority_from_str (l : List Char) : Option (List Char) :=
  if authorityValid l then some l else none

/-- Character test used to split a path-and-query at the first `?`. -/
def notQuery (c : Char) : Bool := !(decide (c = '?'))

/-- Models the path-character table of `http::uri::PathAndQuery` parsing:
`!`, `$` through `;`, `=`, `@` through `_`, lowercase letters, `|` and
`~`. -/
def isPathChar (c : Char) : Bool :=
  decide (c.toNat = 0x21) ||
  (decide (0x24 ≤ c.toNat) && decide (c.toNat ≤ 0x3B)) || decide (c.toNat = 0x3D) ||
  (decide (0x40 ≤ c.toNat) && decide (c.toNat ≤ 0x5F)) ||
  (decide (0x61 ≤ c.toNat) && decide (c.toNat ≤ 0x7A)) ||
  decide (c.toNat = 0x7C) || decide (c.toNat = 0x7E)

/-- Models the scanning loop of `http::uri::PathAndQuery` parsing: a `?`
switches to the query part, where the double quote and the curly brackets
(codes 0x22, 0x7B, 0x7D) are additionally allowed; a `#` is rejected. -/
def pqScan : List Char → Bool → Bool
  | [], _ => true
  | c :: rest, inQuery =>
    if c.toNat = 0x3F then pqScan rest true
    else if c.toNat = 0x23 then false
    else if isPathChar c then pqScan rest inQuery
    else if inQuery ∧ (c.toNat = 0x22 ∨ c.toNat = 0x7B ∨ c.toNat = 0x7D) then
      pqScan rest inQuery
    else false

/-- Models `http::uri::PathAndQuery::from_str` validity. -/
def path_and_query_valid (l : List Char) : Bool := pqScan l false

/-- Component-wise embedding of `http::uri::Uri` as used by
`endpoint.rs`: optional scheme, optional authority, optional
path-and-query. -/
structure Uri where
  scheme : Option (List Char)
  authority : Option (List Char)
  pathAndQuery : Option (List Char)
deriving DecidableEq

/-- Models `Uri::path` restricted to the shapes produced here: the part of
the path-and-query before the first `?` (empty when there is no
path-and-query). -/
def Uri.path (u : Uri) : List Char :=
  ((u.pathAndQuery).getD []).takeWhile notQuery

/-- Models `PathAndQuery::query` lifted to the URI: the part after the
first `?` when one is present. -/
def Uri.query (u : Uri) : Option (List Char) :=
  match ((u.pathAndQuery).getD []).dropWhile notQuery with
  | [] => none
  | _ :: rest => some rest

/-- Modelled from the spec: the error module `endpoint/error.rs` of
`aws-smithy-http` is not part of the source slice; the constructors are
taken from the call sites visible in `endpoint.rs`
(`failed_to_construct_authority`, `endpoint_must_have_scheme`,
`failed_to_construct_uri`).  `failedToConstructAuthority` carries the
offending authority string, as the call sites pass it. -/
inductive InvalidEndpointError where
  | failedToConstructAuthority (authority : List Char)
  | endpointMustHaveScheme
  | failedToConstructUri
deriving DecidableEq

/-- Embedding of `EndpointPrefix`: a wrapper around a validated string
(`struct EndpointPrefix(String)` in `endpoint.rs`). -/
structure EndpointPrefix where
  val : List Char
deriving DecidableEq

instance {ε α : Type} [DecidableEq ε] [DecidableEq α] : DecidableEq (Except ε α) := fun
  | .ok a, .ok b =>
    if h : a = b then isTrue (by rw [h]) else isFalse (fun hh => h (by cases hh; rfl))
  | .ok _, .error _ => isFalse (fun hh => by cases hh)
  | .error _, .ok _ => isFalse (fun hh => by cases hh)
  | .error a, .error b =>
    if h : a = b then isTrue (by rw [h]) else isFalse (fun hh => h (by cases hh; rfl))

/-- Embedding of `EndpointPrefix::new`: validate the string with
`Authority::from_str`; keep the string on success, return
`failed_to_construct_authority` on failure. -/
def EndpointPrefix.new (p : List Char) : Except InvalidEndpointError EndpointPrefix :=
  match authority_from_str p with
  | some _ => .ok ⟨p⟩
  | none => .error (.failedToConstructAuthority p)

/-- Embedding of `EndpointPrefix::as_str`. -/
def EndpointPrefix.as_str (e : EndpointPrefix) : List Char := e.val

/-- Embedding of Rust `endpoint_path.strip_suffix('/').unwrap_or(endpoint_path)`
from `merge_paths`: remove one trailing slash if present. -/
def stripTrailingSlash (l : List Char) : List Char :=
  if l.getLast? = some '/' then l.dropLast else l

/-- Embedding of Rust `uri_path_and_query.strip_prefix of a slash
.unwrap_or(uri_path_and_query)` from `merge_paths`: remove one leading
slash if present. -/
def stripLeadingSlash : List Char → List Char
  | [] => []
  | c :: t => if c = '/' then t else c :: t

/-- Embedding of `merge_paths` from `endpoint.rs`: if the endpoint path is
empty the request's path-and-query is returned unchanged; otherwise one
trailing slash is stripped from the endpoint path, one leading slash from
the request's path-and-query, and the two are joined with a single slash.
The warning emitted when the endpoint carries a query is observability
only and does not affect the value. -/
def merge_paths (endpoint uri : Uri) : List Char :=
  if endpoint.path.isEmpty then (uri.pathAndQuery).getD []
  else stripTrailingSlash endpoint.path ++ '/' :: stripLeadingSlash ((uri.pathAndQuery).getD [])

/-- Embedding of the authority-string assembly in `apply_endpoint`: the
endpoint's authority string (empty when absent), with the prefix string
prepended when a prefix was supplied and its string is non-empty. -/
def composed_authority (endpoint : Uri) (pfx : Option EndpointPrefix) : List Char :=
  if !((pfx.map EndpointPrefix.val).getD []).isEmpty then
    (pfx.map EndpointPrefix.val).getD [] ++ (endpoint.authority).getD []
  else (endpoint.authority).getD []

/-- Embedding of `Uri::builder()...build()` as used in `apply_endpoint`:
scheme and authority are already-validated components, so the only failure
mode left is the conversion of the merged path-and-query string, mapped to
`failed_to_construct_uri` by the call site. -/
def uri_build (scheme authority pq : List Char) : Except InvalidEndpointError Uri :=
  if path_and_query_valid pq then .ok ⟨some scheme, some authority, some pq⟩
  else .error .failedToConstructUri

/-- Embedding of `apply_endpoint` from `endpoint.rs`.  The Rust function
mutates `uri` in place and returns `Result<(), InvalidEndpointError>`; the
state is made explicit here, returning the result value together with the
final request URI (unchanged on every error path, replaced by the newly
built URI only on success, exactly as the single `*uri = new_uri`
assignment at the end of the Rust function does). -/
def apply_endpoint (uri endpoint : Uri) (pfx : Option EndpointPrefix) :
    Except InvalidEndpointError Unit × Uri :=
  match authority_from_str (composed_authority endpoint pfx) with
  | none => (.error (.failedToConstructAuthority (composed_authority endpoint pfx)), uri)
  | some authority =>
    match endpoint.scheme with
    | none => (.error .endpointMustHaveScheme, uri)
    | some scheme =>
      match uri_build scheme authority (merge_paths endpoint uri) with
      | .error e => (.error e, uri)
      | .ok newUri => (.ok (), newUri)

/-- Path-level merge used to state the composition invariant: the merge of
the endpoint's path with the request's path alone (the request's query is
carried separately). -/
def merge_path_strings (ep rp : List Char) : List Char :=
  if ep.isEmpty then rp
  else stripTrailingSlash ep ++ '/' :: stripLeadingSlash rp

/-- Characters that may appear in an endpoint-prefix string without
interacting with the authority grammar of anything that follows them:
valid authority characters other than the terminators `/`, `?`, `#`, the
percent sign, the port colon, the IPv6 brackets and the user-info `@`.
Used to state the amended form of the prefix-concatenation property. -/
def safeAuthorityChar (c : Char) : Bool :=
  isUriChar c && !(decide (c.toNat = 0x2F)) && !(decide (c.toNat = 0x3F)) &&
  !(decide (c.toNat = 0x23)) && !(decide (c.toNat = 0x25)) && !(decide (c.toNat = 0x3A)) &&
  !(decide (c.toNat = 0x5B)) && !(decide (c.toNat = 0x5D)) && !(decide (c.toNat = 0x40))

/-- Removal of every trailing slash.  This follows the words of the
single-slash claim (a join independent of how many trailing slashes the
endpoint path has), to be compared against `merge_paths`, which strips at
most one. -/
def dropTrailingSlashes (l : List Char) : List Char :=
  (l.reverse.dropWhile (fun c => decide (c = '/'))).reverse

/-- Removal of every leading slash.  This follows the words of the
single-slash claim (a join independent of how many leading slashes the
request path has), to be compared against `merge_paths`, which strips at
most one. -/
def dropLeadingSlashes (l : List Char) : List Char :=
  l.dropWhile (fun c => decide (c = '/'))

/-- The same URI with the query part of its path-and-query removed.  Used
to state that the endpoint's query never influences composition. -/
def Uri.dropQuery (u : Uri) : Uri :=
  ⟨u.scheme, u.authority, u.pathAndQuery.map (fun pq => pq.takeWhile notQuery)⟩

/-
Helper lemmas about the embedded list operations.
-/

theorem takeWhile_append_all (p : Char → Bool) (l1 l2 : List Char)
    (h : ∀ c ∈ l1, p c = true) :
    (l1 ++ l2).takeWhile p = l1 ++ l2.takeWhile p := by
  induction l1 with
  | nil => simp
  | cons c t ih =>
    have hc : p c = true := h c (List.mem_cons_self c t)
    simp [List.takeWhile_cons, hc, ih (fun x hx => h x (List.mem_cons_of_mem _ hx))]

theorem dropWhile_append_all (p : Char → Bool) (l1 l2 : List Char)
    (h : ∀ c ∈ l1, p c = true) :
    (l1 ++ l2).dropWhile p = l2.dropWhile p := by
  induction l1 with
  | nil => simp
  | cons c t ih =>
    have hc : p c = true := h c (List.mem_cons_self c t)
    simp [List.dropWhile_cons, hc, ih (fun x hx => h x (List.mem_cons_of_mem _ hx))]

theorem mem_stripTrailingSlash {c : Char} {l : List Char}
    (h : c ∈ stripTrailingSlash l) : c ∈ l := by
  unfold stripTrailingSlash at h
  split at h
  · exact List.mem_of_mem_dropLast h
  · exact h

theorem notQuery_of_mem_path {c : Char} {u : Uri} (h : c ∈ u.path) :
    notQuery c = true :=
  List.mem_takeWhile_imp h

theorem notQuery_slash : notQuery '/' = true := rfl

theorem takeWhile_stripLeadingSlash (l : List Char) :
    (stripLeadingSlash l).takeWhile notQuery = stripLeadingSlash (l.takeWhile notQuery) := by
  cases l with
  | nil => rfl
  | cons c t =>
    by_cases hc : c = '/'
    · subst hc
      simp [stripLeadingSlash, List.takeWhile_cons, notQuery_slash]
    · by_cases hq : c = '?'
      · subst hq
        have : notQuery '?' = false := rfl
        simp [stripLeadingSlash, List.takeWhile_cons, this, hc]
      · have hnq : notQuery c = true := by simp [notQuery, hq]
        simp [stripLeadingSlash, List.takeWhile_cons, hnq, hc]

theorem dropWhile_stripLeadingSlash (l : List Char) :
    (stripLeadingSlash l).dropWhile notQuery = l.dropWhile notQuery := by
  cases l with
  | nil => rfl
  | cons c t =>
    by_cases hc : c = '/'
    · subst hc
      simp [stripLeadingSlash, List.dropWhile_cons, notQuery_slash]
    · simp [stripLeadingSlash, hc]

theorem all_notQuery_stripTrailingSlash_path (e : Uri) :
    ∀ c ∈ stripTrailingSlash e.path, notQuery c = true :=
  fun _ hc => notQuery_of_mem_path (mem_stripTrailingSlash hc)

theorem merge_paths_takeWhile (e u : Uri) :
    (merge_paths e u).takeWhile notQuery = merge_path_strings e.path u.path := by
  unfold merge_paths merge_path_strings
  by_cases hE : e.path.isEmpty
  · rw [if_pos hE, if_pos hE]
    rfl
  · rw [if_neg hE, if_neg hE]
    rw [takeWhile_append_all notQuery _ _ (all_notQuery_stripTrailingSlash_path e)]
    rw [List.takeWhile_cons]
    rw [notQuery_slash]
    rw [if_pos rfl]
    rw [takeWhile_stripLeadingSlash]
    rfl

theorem merge_paths_dropWhile (e u : Uri) :
    (merge_paths e u).dropWhile notQuery = ((u.pathAndQuery).getD []).dropWhile notQuery := by
  unfold merge_paths
  by_cases hE : e.path.isEmpty
  · rw [if_pos hE]
  · rw [if_neg hE]
    rw [dropWhile_append_all notQuery _ _ (all_notQuery_stripTrailingSlash_path e)]
    rw [List.dropWhile_cons]
    rw [notQuery_slash]
    rw [if_pos rfl]
    exact dropWhile_stripLeadingSlash _

theorem composed_authority_eq (e : Uri) (pf : Option EndpointPrefix) :
    composed_authority e pf = (pf.map EndpointPrefix.val).getD [] ++ (e.authority).getD [] := by
  unfold composed_authority
  cases hL : (pf.map EndpointPrefix.val).getD [] with
  | nil => simp
  | cons c t => rfl

theorem apply_endpoint_ok_iff (u e : Uri) (pf : Option EndpointPrefix) (u1 : Uri) :
    apply_endpoint u e pf = (.ok (), u1) ↔
      authorityValid (composed_authority e pf) = true ∧
      ∃ sch, e.scheme = some sch ∧
        path_and_query_valid (merge_paths e u) = true ∧
        u1 = ⟨some sch, some (composed_authority e pf), some (merge_paths e u)⟩ := by
  unfold apply_endpoint authority_from_str uri_build
  by_cases hv : authorityValid (composed_authority e pf)
  · rw [if_pos hv]
    cases hs : e.scheme with
    | none => simp [hv]
    | some sch =>
      by_cases hq : path_and_query_valid (merge_paths e u)
      · simp only [hq, eq_self_iff_true, if_true, hv, true_and]
        constructor
        · intro h
          refine ⟨sch, rfl, ?_⟩
          have := congrArg Prod.snd h
          simpa using this.symm
        · rintro ⟨sch2, hs2, rfl⟩
          have : sch2 = sch := by injection hs2.symm
          subst this
          rfl
      · rw [Bool.eq_false_iff.mpr hq]
        simp [hq]
  · rw [if_neg hv]
    simp [hv]

/-
Claim theorems.
-/

/-- Claim C2: the path-merge function returns the request's path-and-query
unchanged (query included) when the endpoint's path is empty, and
`strip_trailing_slash(endpoint_path) ++ "/" ++
strip_leading_slash(request_path_and_query)` when the endpoint's path is
non-empty; and the five rows of the path-merge table hold exactly. -/
theorem merge_paths_spec :
    (∀ e u : Uri, merge_paths e u =
      if e.path.isEmpty then (u.pathAndQuery).getD []
      else stripTrailingSlash e.path ++ '/' :: stripLeadingSlash ((u.pathAndQuery).getD [])) ∧
    merge_paths ⟨none, none, some (chars (""))⟩ ⟨none, none, some (chars ("/bar"))⟩ =
      chars ("/bar") ∧
    merge_paths ⟨none, none, some (chars ("/foo"))⟩ ⟨none, none, some (chars ("/bar"))⟩ =
      chars ("/foo/bar") ∧
    merge_paths ⟨none, none, some (chars ("/foo/"))⟩ ⟨none, none, some (chars ("/bar"))⟩ =
      chars ("/foo/bar") ∧
    merge_paths ⟨none, none, some (chars ("/foo"))⟩ ⟨none, none, some (chars ("/bar?x=1"))⟩ =
      chars ("/foo/bar?x=1") ∧
    merge_paths ⟨none, none, some (chars ("/foo"))⟩ ⟨none, none, some (chars (""))⟩ =
      chars ("/foo/") :=
  ⟨fun _ _ => rfl, by decide, by decide, by decide, by decide, by decide⟩

/-- Claim C5: `EndpointPrefix` construction fails with the
failed-to-construct-authority cause, carrying exactly the offending string,
precisely when the string does not parse as a standalone authority; when it
does parse, construction succeeds and the accessor returns exactly the
input string. -/
theorem endpoint_pfx_new_spec (p : List Char) :
    (EndpointPrefix.new p = .error (.failedToConstructAuthority p) ↔
      authorityValid p = false) ∧
    (authorityValid p = true →
      EndpointPrefix.new p = .ok ⟨p⟩ ∧ EndpointPrefix.as_str ⟨p⟩ = p) := by
  unfold EndpointPrefix.new authority_from_str
  by_cases hv : authorityValid p
  · rw [if_pos hv]
    simp [hv, EndpointPrefix.as_str]
  · rw [if_neg hv]
    simp [Bool.eq_false_iff.mpr hv]

/-- Witness for C5: a string with a space fails construction with the
authority cause; a plain host string is accepted. -/
theorem endpoint_pfx_new_spec_witness :
    EndpointPrefix.new (chars ("a b")) =
      .error (.failedToConstructAuthority (chars ("a b"))) ∧
    EndpointPrefix.new (chars ("ex.com")) = .ok ⟨chars ("ex.com")⟩ :=
  ⟨(endpoint_pfx_new_spec (chars ("a b"))).1.mpr (by decide),
   ((endpoint_pfx_new_spec (chars ("ex.com"))).2 (by decide)).1⟩

/-- Claim C6: when the endpoint has no scheme and the composed authority
parses, `apply_endpoint` returns the endpoint-must-have-scheme error and
leaves the request URI unchanged; no default scheme is substituted (the
returned request URI and error are exactly these values) and, the
embedding being total, no panic is possible. -/
theorem apply_endpoint_missing_scheme (u e : Uri) (pf : Option EndpointPrefix)
    (hs : e.scheme = none)
    (hv : authorityValid (composed_authority e pf) = true) :
    apply_endpoint u e pf = (.error .endpointMustHaveScheme, u) := by
  unfold apply_endpoint authority_from_str
  rw [if_pos hv, hs]

/-- Witness for C6: a schemeless endpoint with a valid authority. -/
theorem apply_endpoint_missing_scheme_witness :
    apply_endpoint ⟨none, none, some (chars ("/x"))⟩
      ⟨none, some (chars ("example.com")), none⟩ none =
      (.error .endpointMustHaveScheme, ⟨none, none, some (chars ("/x"))⟩) :=
  apply_endpoint_missing_scheme _ _ none rfl (by decide)

/-- Counterexample to C9: the prefix-validation stage and the composed
authority stage are not distinguishable as distinct tagged causes — the
code produces the same `failed_to_construct_authority` cause at both call
sites, here with identical carried strings, so the two error values are
equal. -/
theorem error_stage_tags_countereg :
    EndpointPrefix.new (chars ("a b")) =
      .error (.failedToConstructAuthority (chars ("a b"))) ∧
    (apply_endpoint ⟨none, none, some (chars ("/x"))⟩
        ⟨some (chars ("https")), some (chars ("b")), none⟩
        (some ⟨chars ("a ")⟩)).1 =
      .error (.failedToConstructAuthority (chars ("a b"))) := by
  exact ⟨by decide, by decide⟩

/-- Claim C9 amended: both the prefix-validation failure and the composed
authority failure are reported with the same
`failed_to_construct_authority` cause carrying the offending string (so
the stages are discriminated only by that string, not by the tag), while
the scheme and URI-build stages use causes distinct from it. -/
theorem error_stage_tags (p : List Char) (hv : authorityValid p = false) :
    EndpointPrefix.new p = .error (.failedToConstructAuthority p) ∧
    (∀ u e pf, authorityValid (composed_authority e pf) = false →
      (apply_endpoint u e pf).1 =
        .error (.failedToConstructAuthority (composed_authority e pf))) ∧
    InvalidEndpointError.failedToConstructAuthority p ≠ .endpointMustHaveScheme ∧
    InvalidEndpointError.failedToConstructAuthority p ≠ .failedToConstructUri := by
  refine ⟨?_, ?_, by simp, by simp⟩
  · unfold EndpointPrefix.new authority_from_str
    rw [if_neg (by simp [hv])]
  · intro u e pf hcv
    unfold apply_endpoint authority_from_str
    rw [if_neg (by simp [hcv])]

/-- Witness for the amended C9: the string `a@` is an invalid authority
and construction reports the authority cause for it. -/
theorem error_stage_tags_witness :
    EndpointPrefix.new (chars ("a@")) =
      .error (.failedToConstructAuthority (chars ("a@"))) :=
  (error_stage_tags (chars ("a@")) (by decide)).1

/-- Claim C10: whenever `apply_endpoint` returns an error, the request URI
component of the result is exactly the input request URI — the in-place
assignment happens only after every step has succeeded. -/
theorem apply_endpoint_error_atomic (u e : Uri) (pf : Option EndpointPrefix)
    (err : InvalidEndpointError)
    (h : (apply_endpoint u e pf).1 = .error err) :
    (apply_endpoint u e pf).2 = u := by
  unfold apply_endpoint at h ⊢
  cases hA : authority_from_str (composed_authority e pf) with
  | none => simp
  | some a =>
    simp only [hA] at h ⊢
    cases hs : e.scheme with
    | none => simp
    | some sch =>
      simp only [hs] at h ⊢
      cases hb : uri_build sch a (merge_paths e u) with
      | error e2 => simp [hb]
      | ok nu =>
        simp only [hb] at h
        exact absurd h (by simp)

/-- Witness for C10: an endpoint with no authority at all makes the
composed authority the empty string, which fails to parse; the request URI
comes back unchanged. -/
theorem apply_endpoint_error_atomic_witness :
    (apply_endpoint ⟨none, none, some (chars ("/x"))⟩ ⟨none, none, none⟩ none).2 =
      ⟨none, none, some (chars ("/x"))⟩ :=
  apply_endpoint_error_atomic _ _ none (.failedToConstructAuthority []) (by decide)

/-- Claim C1: when `apply_endpoint` succeeds, the resulting request URI
carries the endpoint's scheme, the endpoint's authority with the prefix
string prepended (unchanged when no prefix is present, the prepended
string then being empty), the merge of the endpoint's path with the
original request path, and the original request's query; and in the
concrete scenario, endpoint `https://example.amazonaws.com/prefix` with
prefix `myop-` applied to request `/resource?q=1` yields
`https://myop-example.amazonaws.com/prefix/resource?q=1`. -/
theorem apply_endpoint_success_invariant :
    (∀ (u e : Uri) (pf : Option EndpointPrefix) (u1 : Uri),
      apply_endpoint u e pf = (.ok (), u1) →
      u1.scheme = e.scheme ∧
      u1.authority = some ((pf.map EndpointPrefix.val).getD [] ++ (e.authority).getD []) ∧
      u1.path = merge_path_strings e.path u.path ∧
      u1.query = u.query) ∧
    apply_endpoint ⟨none, none, some (chars ("/resource?q=1"))⟩
      ⟨some (chars ("https")), some (chars ("example.amazonaws.com")),
        some (chars ("/prefix"))⟩
      (some ⟨chars ("myop-")⟩) =
      (.ok (), ⟨some (chars ("https")), some (chars ("myop-example.amazonaws.com")),
        some (chars ("/prefix/resource?q=1"))⟩) := by
  constructor
  · intro u e pf u1 h
    obtain ⟨hv, sch, hs, hq, rfl⟩ := (apply_endpoint_ok_iff u e pf u1).1 h
    refine ⟨hs.symm, ?_, ?_, ?_⟩
    · show some (composed_authority e pf) = _
      rw [composed_authority_eq]
    · show (merge_paths e u).takeWhile notQuery = _
      exact merge_paths_takeWhile e u
    · show (match (merge_paths e u).dropWhile notQuery with
            | [] => none
            | _ :: rest => some rest) = Uri.query u
      rw [merge_paths_dropWhile e u]
      rfl
  · decide

/-- Witness for C1: the invariant applied to the scenario input (its
query conjunct: the composed URI keeps the request's query `q=1`). -/
theorem apply_endpoint_success_invariant_witness :
    (⟨some (chars ("https")), some (chars ("myop-example.amazonaws.com")),
       some (chars ("/prefix/resource?q=1"))⟩ : Uri).query =
      (⟨none, none, some (chars ("/resource?q=1"))⟩ : Uri).query :=
  (apply_endpoint_success_invariant.1
    ⟨none, none, some (chars ("/resource?q=1"))⟩
    ⟨some (chars ("https")), some (chars ("example.amazonaws.com")),
      some (chars ("/prefix"))⟩
    (some ⟨chars ("myop-")⟩)
    ⟨some (chars ("https")), some (chars ("myop-example.amazonaws.com")),
      some (chars ("/prefix/resource?q=1"))⟩
    (by decide)).2.2.2

theorem authorityScan_append_safe :
    ∀ (p : List Char), (∀ c ∈ p, safeAuthorityChar c = true) →
    ∀ (l : List Char) (colons : Nat) (sb eb hpc : Bool),
    authorityScan (p ++ l) colons sb eb hpc = authorityScan l colons sb eb hpc := by
  intro p
  induction p with
  | nil => intro _ l colons sb eb hpc; rfl
  | cons c t ih =>
    intro hp l colons sb eb hpc
    have hc := hp c (List.mem_cons_self c t)
    have ht : ∀ x ∈ t, safeAuthorityChar x = true :=
      fun x hx => hp x (List.mem_cons_of_mem _ hx)
    simp only [safeAuthorityChar, Bool.and_eq_true, Bool.not_eq_true',
      decide_eq_false_iff_not] at hc
    obtain ⟨⟨⟨⟨⟨⟨⟨⟨hu, h2F⟩, h3F⟩, h23⟩, h25⟩, h3A⟩, h5B⟩, h5D⟩, h40⟩ := hc
    show authorityScan (c :: (t ++ l)) colons sb eb hpc = _
    simp only [authorityScan]
    rw [if_neg (by simp [h2F, h3F, h23]), if_neg h25, if_neg (by simp [hu]),
      if_neg h3A, if_neg h5B, if_neg h5D, if_neg h40]
    exact ih ht l colons sb eb hpc

theorem mem_of_getLast?_eq_some {c : Char} {l : List Char}
    (h : l.getLast? = some c) : c ∈ l := by
  obtain ⟨hne, hc⟩ := List.mem_getLast?_eq_getLast (show c ∈ l.getLast? from h)
  rw [hc]
  exact List.getLast_mem hne

theorem safe_not_at_sign {c : Char} (hc : safeAuthorityChar c = true) :
    ¬(c = Char.ofNat 0x40) := by
  intro hcc
  subst hcc
  exact absurd hc (by decide)

theorem endpoint_pfx_safe_valid (p : List Char) (hne : p ≠ [])
    (hp : ∀ c ∈ p, safeAuthorityChar c = true) :
    authorityValid p = true := by
  have hscan := authorityScan_append_safe p hp [] 0 false false false
  rw [List.append_nil] at hscan
  unfold authorityValid
  rw [Bool.and_eq_true, Bool.and_eq_true]
  refine ⟨⟨?_, ?_⟩, ?_⟩
  · cases p with
    | nil => exact absurd rfl hne
    | cons c t => rfl
  · cases hL : p.getLast? with
    | none => rfl
    | some c =>
      have hcm : c ∈ p := mem_of_getLast?_eq_some hL
      have : ¬(c = Char.ofNat 0x40) := safe_not_at_sign (hp c hcm)
      simp [this]
  · rw [hscan]
    rfl

theorem authorityValid_append_safe (p a : List Char)
    (hne : p ≠ [])
    (hp : ∀ c ∈ p, safeAuthorityChar c = true)
    (ha : authorityValid a = true) :
    authorityValid (p ++ a) = true := by
  unfold authorityValid at ha ⊢
  rw [Bool.and_eq_true, Bool.and_eq_true] at ha
  obtain ⟨⟨ha1, ha2⟩, ha3⟩ := ha
  have hane : a ≠ [] := by
    intro hnil
    subst hnil
    exact absurd ha1 (by decide)
  rw [Bool.and_eq_true, Bool.and_eq_true]
  refine ⟨⟨?_, ?_⟩, ?_⟩
  · cases p with
    | nil => exact absurd rfl hne
    | cons c t => rfl
  · rw [List.getLast?_append_of_ne_nil p hane]
    exact ha2
  · rw [authorityScan_append_safe p hp a 0 false false false]
    exact ha3

/-- Counterexample to C3: `a:1` is accepted by `EndpointPrefix`
construction (the port digits are not checked by authority parsing) and
`b:2` is a syntactically valid authority, yet their concatenation
`a:1b:2` carries two port colons and fails to parse as an authority. -/
theorem pfx_concat_countereg :
    EndpointPrefix.new (chars ("a:1")) = .ok ⟨chars ("a:1")⟩ ∧
    authority_from_str (chars ("b:2")) = some (chars ("b:2")) ∧
    authority_from_str (chars ("a:1") ++ chars ("b:2")) = none := by
  exact ⟨by decide, by decide, by decide⟩

/-- Claim C3 amended: a valid `EndpointPrefix` whose characters are plain
authority characters — excluding the port colon, the IPv6 brackets, the
user-info `@`, the percent sign and the terminators (for example host
labels with `.` and `-`, as the endpoint-prefix convention produces) —
prepends to every syntactically valid authority to give a string that
still parses as an authority.  For prefixes containing `:`, `[`, `]` or
`@`, the counterexample shows the original claim fails. -/
theorem pfx_safe_concat (p a : List Char)
    (hne : p ≠ [])
    (hp : ∀ c ∈ p, safeAuthorityChar c = true)
    (ha : authorityValid a = true) :
    EndpointPrefix.new p = .ok ⟨p⟩ ∧
    authority_from_str (p ++ a) = some (p ++ a) := by
  constructor
  · unfold EndpointPrefix.new authority_from_str
    rw [if_pos (endpoint_pfx_safe_valid p hne hp)]
  · unfold authority_from_str
    rw [if_pos (authorityValid_append_safe p a hne hp ha)]

/-- Witness for the amended C3: prefix `myop-` and authority
`example.com`. -/
theorem pfx_safe_concat_witness :
    EndpointPrefix.new (chars ("myop-")) = .ok ⟨chars ("myop-")⟩ ∧
    authority_from_str (chars ("myop-") ++ chars ("example.com")) =
      some (chars ("myop-") ++ chars ("example.com")) :=
  pfx_safe_concat (chars ("myop-")) (chars ("example.com"))
    (by decide) (by decide) (by decide)

/-- Counterexample to C4: with endpoint `https://example.com/foo` and
request `/bar`, the first composition yields path `/foo/bar`, but applying
the same endpoint to the already-composed URI succeeds with path
`/foo/foo/bar` — the endpoint path is prepended again, so the second
result differs from the first. -/
theorem apply_endpoint_not_idempotent :
    apply_endpoint ⟨none, none, some (chars ("/bar"))⟩
      ⟨some (chars ("https")), some (chars ("example.com")), some (chars ("/foo"))⟩ none =
      (.ok (), ⟨some (chars ("https")), some (chars ("example.com")),
        some (chars ("/foo/bar"))⟩) ∧
    apply_endpoint ⟨some (chars ("https")), some (chars ("example.com")),
        some (chars ("/foo/bar"))⟩
      ⟨some (chars ("https")), some (chars ("example.com")), some (chars ("/foo"))⟩ none =
      (.ok (), ⟨some (chars ("https")), some (chars ("example.com")),
        some (chars ("/foo/foo/bar"))⟩) ∧
    chars ("/foo/foo/bar") ≠ chars ("/foo/bar") := by
  exact ⟨by decide, by decide, by decide⟩

/-- Claim C4 amended: composing an already-composed request URI a second
time against the same endpoint and prefix yields the same final URI when
the endpoint's path is empty or is the single slash `/`; with any other
endpoint path the second composition prepends the endpoint path again
(see the counterexample). -/
theorem apply_endpoint_idem (u e : Uri) (pf : Option EndpointPrefix) (u1 : Uri)
    (hpath : e.path = [] ∨ e.path = ['/'])
    (h : apply_endpoint u e pf = (.ok (), u1)) :
    apply_endpoint u1 e pf = (.ok (), u1) := by
  obtain ⟨hv, sch, hs, hq, rfl⟩ := (apply_endpoint_ok_iff u e pf u1).1 h
  have hm : merge_paths e ⟨some sch, some (composed_authority e pf),
      some (merge_paths e u)⟩ = merge_paths e u := by
    rcases hpath with hp | hp
    · unfold merge_paths
      rw [hp]
      rfl
    · unfold merge_paths
      rw [hp]
      rfl
  exact (apply_endpoint_ok_iff _ e pf _).2
    ⟨hv, sch, hs, by rw [hm]; exact hq, by rw [hm]⟩

/-- Witness for the amended C4: endpoint `https://example.com` with no
path; re-applying it to the composed URI is a fixed point. -/
theorem apply_endpoint_idem_witness :
    apply_endpoint
      ⟨some (chars ("https")), some (chars ("example.com")), some (chars ("/x"))⟩
      ⟨some (chars ("https")), some (chars ("example.com")), none⟩ none =
      (.ok (), ⟨some (chars ("https")), some (chars ("example.com")),
        some (chars ("/x"))⟩) :=
  apply_endpoint_idem ⟨none, none, some (chars ("/x"))⟩
    ⟨some (chars ("https")), some (chars ("example.com")), none⟩ none
    ⟨some (chars ("https")), some (chars ("example.com")), some (chars ("/x"))⟩
    (Or.inl rfl) (by decide)

theorem takeWhile_self_idem (p : Char → Bool) (l : List Char) :
    (l.takeWhile p).takeWhile p = l.takeWhile p := by
  induction l with
  | nil => rfl
  | cons c t ih =>
    by_cases hc : p c
    · simp [List.takeWhile_cons, hc, ih]
    · have hc2 := Bool.eq_false_iff.mpr hc
      simp [List.takeWhile_cons, hc2]

/-- Claim C7: the endpoint's query component never influences
`apply_endpoint` — replacing the endpoint by the same endpoint with its
query removed gives, for every request URI and prefix, the identical
result (same success or failure, same error, same final request URI).  In
particular a query never causes an error and no part of it reaches the
composed URI; the warning the code logs for it is observability only. -/
theorem endpoint_query_dropped (u e : Uri) (pf : Option EndpointPrefix) :
    apply_endpoint u (e.dropQuery) pf = apply_endpoint u e pf := by
  have hpath : (e.dropQuery).path = e.path := by
    unfold Uri.dropQuery Uri.path
    cases hQ : e.pathAndQuery with
    | none => rfl
    | some pq =>
      show ((some (pq.takeWhile notQuery)).getD []).takeWhile notQuery = _
      exact takeWhile_self_idem notQuery pq
  have hmerge : merge_paths (e.dropQuery) u = merge_paths e u := by
    unfold merge_paths
    rw [hpath]
  have hca : composed_authority (e.dropQuery) pf = composed_authority e pf := rfl
  have hsch : (e.dropQuery).scheme = e.scheme := rfl
  unfold apply_endpoint
  rw [hmerge, hca, hsch]

/-- Counterexample to C8: the code strips only one trailing slash from the
endpoint path, so with endpoint path `/foo//` and request `/bar` the
merge yields `/foo//bar` — two slashes at the join — instead of the
single-slash join of the slash-free parts that the claim predicts for any
number of trailing slashes. -/
theorem merge_paths_double_slash :
    merge_paths ⟨none, none, some (chars ("/foo//"))⟩ ⟨none, none, some (chars ("/bar"))⟩ =
      chars ("/foo//bar") ∧
    chars ("/foo//bar") ≠
      dropTrailingSlashes (chars ("/foo//")) ++ '/' :: dropLeadingSlashes (chars ("/bar")) := by
  exact ⟨by decide, by decide⟩

/-- Claim C8 amended: for a non-empty endpoint path with at most one
trailing slash and a request path-and-query with at most one leading
slash, the merged result is the stripped endpoint path and the stripped
request path joined by exactly one slash (the part before the join does
not end in a slash, the part after it does not start with one).  With two
or more slashes on either side the extra slashes survive the join (see
the counterexample). -/
theorem merge_paths_single_slash (e u : Uri)
    (hne : e.path ≠ [])
    (h2 : e.path.getLast? = some '/' → e.path.dropLast.getLast? ≠ some '/')
    (h3 : ((u.pathAndQuery).getD []).head? = some '/' →
      ((u.pathAndQuery).getD []).tail.head? ≠ some '/') :
    merge_paths e u =
      stripTrailingSlash e.path ++ '/' :: stripLeadingSlash ((u.pathAndQuery).getD []) ∧
    (stripTrailingSlash e.path).getLast? ≠ some '/' ∧
    (stripLeadingSlash ((u.pathAndQuery).getD [])).head? ≠ some '/' := by
  refine ⟨?_, ?_, ?_⟩
  · unfold merge_paths
    rw [if_neg (fun hE => hne (List.isEmpty_iff.mp hE))]
  · unfold stripTrailingSlash
    by_cases hL : e.path.getLast? = some '/'
    · rw [if_pos hL]
      exact h2 hL
    · rw [if_neg hL]
      exact hL
  · cases hpq : (u.pathAndQuery).getD [] with
    | nil =>
      intro hh
      exact absurd hh (by decide)
    | cons c t =>
      rw [hpq] at h3
      by_cases hc : c = '/'
      · subst hc
        have ht := h3 rfl
        have hL : stripLeadingSlash ('/' :: t) = t := by
          show (if ('/' : Char) = '/' then t else '/' :: t) = t
          rw [if_pos rfl]
        rw [hL]
        exact ht
      · have hL : stripLeadingSlash (c :: t) = c :: t := by
          show (if c = '/' then t else c :: t) = c :: t
          rw [if_neg hc]
        rw [hL]
        intro hcc
        exact hc (by injection hcc)

/-- Witness for the amended C8: endpoint path `/foo/` (one trailing
slash) and request `/bar` (one leading slash) join as `/foo` ++ `/` ++
`bar` with exactly one slash at the join. -/
theorem merge_paths_single_slash_witness :
    merge_paths ⟨none, none, some (chars ("/foo/"))⟩ ⟨none, none, some (chars ("/bar"))⟩ =
      stripTrailingSlash (Uri.path ⟨none, none, some (chars ("/foo/"))⟩) ++
        '/' :: stripLeadingSlash ((some (chars ("/bar"))).getD []) ∧
    (stripTrailingSlash (Uri.path ⟨none, none, some (chars ("/foo/"))⟩)).getLast? ≠
      some '/' ∧
    (stripLeadingSlash ((some (chars ("/bar"))).getD [])).head? ≠ some '/' :=
  merge_paths_single_slash ⟨none, none, some (chars ("/foo/"))⟩
    ⟨none, none, some (chars ("/bar"))⟩ (by decide) (by decide) (by decide)
